import Mathlib

/-!
Shallow embedding of `src/client.py` (an LDAP syncrepl change detector that
republishes directory changes over HTTP), together with proofs about the
synchronization consumer state machine, the `stringify` binary-to-text
conversion, and the connection supervisor loop in `main`.

Python values that flow through `stringify` and the attribute maps are
modelled by the inductive type `Value` (strings, byte strings, lists,
dicts).  Python dicts are modelled as association lists that preserve
insertion order, matching CPython dict semantics; updating an existing key
keeps its position, inserting a new key appends.  Operations that can raise
in Python (`str(b, 'utf-8')` on invalid UTF-8, `KeyError` on a missing dict
key) are modelled with `Option`: `none` is an uncaught exception.
-/

set_option autoImplicit false

namespace PypubsubLdap

/-- A Python value as it appears in attribute maps and `stringify`:
text (`str`), binary (`bytes`, as a list of byte values), `list`, `dict`. -/
inductive Value where
  | str : String → Value
  | bytes : List Nat → Value
  | list : List Value → Value
  | dict : List (String × Value) → Value


/-- Continuation byte test for UTF-8 (`0x80 ≤ b ≤ 0xBF`). -/
def isCont (b : Nat) : Bool :=
  decide (0x80 ≤ b ∧ b ≤ 0xBF)

/-- Strict UTF-8 decoding of a byte list to code points, as performed by
CPython's `str(b, 'utf-8')`: rejects stray continuation bytes, overlong
encodings, surrogates and code points above `U+10FFFF`; `none` models a
raised `UnicodeDecodeError`. -/
def utf8Cps : List Nat → Option (List Nat)
  | [] => some []
  | b1 :: rest =>
    if b1 < 0x80 then
      (utf8Cps rest).map (b1 :: ·)
    else if 0xC2 ≤ b1 ∧ b1 ≤ 0xDF then
      match rest with
      | b2 :: rest2 =>
        if isCont b2 then
          (utf8Cps rest2).map (((b1 - 0xC0) * 0x40 + (b2 - 0x80)) :: ·)
        else none
      | [] => none
    else if 0xE0 ≤ b1 ∧ b1 ≤ 0xEF then
      match rest with
      | b2 :: b3 :: rest3 =>
        if (if b1 = 0xE0 then 0xA0 else 0x80) ≤ b2 ∧
            b2 ≤ (if b1 = 0xED then 0x9F else 0xBF) ∧ isCont b3 then
          (utf8Cps rest3).map
            (((b1 - 0xE0) * 0x1000 + (b2 - 0x80) * 0x40 + (b3 - 0x80)) :: ·)
        else none
      | _ => none
    else if 0xF0 ≤ b1 ∧ b1 ≤ 0xF4 then
      match rest with
      | b2 :: b3 :: b4 :: rest4 =>
        if (if b1 = 0xF0 then 0x90 else 0x80) ≤ b2 ∧
            b2 ≤ (if b1 = 0xF4 then 0x8F else 0xBF) ∧ isCont b3 ∧ isCont b4 then
          (utf8Cps rest4).map
            (((b1 - 0xF0) * 0x40000 + (b2 - 0x80) * 0x1000 +
              (b3 - 0x80) * 0x40 + (b4 - 0x80)) :: ·)
        else none
      | _ => none
    else none

/-- `str(b, 'utf-8')`: strict UTF-8 decoding of bytes to a text value;
`none` models a raised `UnicodeDecodeError`. -/
def decodeBytes (bs : List Nat) : Option String :=
  (utf8Cps bs).map (fun cps => String.mk (cps.map Char.ofNat))

/-- The `elif isinstance(obj, list)` branch of `stringify`: rebuild the list,
decoding byte elements and recursing into list elements; `str` and `dict`
elements are passed through untouched. -/
def stringifyList : List Value → Option (List Value)
  | [] => some []
  | Value.bytes bs :: rest =>
    match decodeBytes bs, stringifyList rest with
    | some s, some r => some (Value.str s :: r)
    | _, _ => none
  | Value.list els :: rest =>
    match stringifyList els, stringifyList rest with
    | some w, some r => some (Value.list w :: r)
    | _, _ => none
  | v :: rest => (stringifyList rest).map (v :: ·)

/-- The `if isinstance(obj, dict)` branch of `stringify`: decode byte
values and recurse into list values (via the recursive `stringify` call,
which on a list is exactly the list branch); values of any other type —
including nested dicts — are left untouched. -/
def stringifyDict : List (String × Value) → Option (List (String × Value))
  | [] => some []
  | (k, Value.bytes bs) :: rest =>
    match decodeBytes bs, stringifyDict rest with
    | some s, some r => some ((k, Value.str s) :: r)
    | _, _ => none
  | (k, Value.list els) :: rest =>
    match stringifyList els, stringifyDict rest with
    | some w, some r => some ((k, Value.list w) :: r)
    | _, _ => none
  | kv :: rest => (stringifyDict rest).map (kv :: ·)

/-- `stringify(obj)` from `src/client.py` lines 108-127: a bytes argument is
decoded to text first (after which the dict/list branches do not apply); a
dict has its byte values decoded and list values recursed; a list is
rebuilt likewise; anything else is returned unchanged.  `none` models a
raised `UnicodeDecodeError`. -/
def stringify : Value → Option Value
  | Value.bytes bs => (decodeBytes bs).map Value.str
  | Value.dict kvs => (stringifyDict kvs).map Value.dict
  | Value.list els => (stringifyList els).map Value.list
  | Value.str s => some (Value.str s)

/-- Does a value contain a binary (`bytes`) value at any nesting depth? -/
def hasBytes : Value → Bool
  | Value.str _ => false
  | Value.bytes _ => true
  | Value.list [] => false
  | Value.list (e :: rest) => hasBytes e || hasBytes (Value.list rest)
  | Value.dict [] => false
  | Value.dict ((_, v) :: rest) => hasBytes v || hasBytes (Value.dict rest)

/-- Does a value contain no `dict` at any nesting depth? -/
def noDict : Value → Bool
  | Value.str _ => true
  | Value.bytes _ => true
  | Value.dict _ => false
  | Value.list [] => true
  | Value.list (e :: rest) => noDict e && noDict (Value.list rest)

/-- Is every `bytes` value anywhere inside valid UTF-8? -/
def allValid : Value → Bool
  | Value.str _ => true
  | Value.bytes bs => (decodeBytes bs).isSome
  | Value.list [] => true
  | Value.list (e :: rest) => allValid e && allValid (Value.list rest)
  | Value.dict [] => true
  | Value.dict ((_, v) :: rest) => allValid v && allValid (Value.dict rest)

/-- An attribute map (a Python dict from attribute name to value),
modelled as an insertion-ordered association list. -/
abbrev AttrMap := List (String × Value)

/-- First value bound to key `k` (Python `d[k]` when present). -/
def lookupKey (k : String) : List (String × Value) → Option Value
  | [] => none
  | (k', v) :: rest => if k' = k then some v else lookupKey k rest

/-- `d[k] = v` on a Python dict: replace in place if the key exists
(keeping its position), otherwise append. -/
def dictInsert (k : String) (v : Value) : AttrMap → AttrMap
  | [] => [(k, v)]
  | (k', v') :: rest =>
    if k' = k then (k', v) :: rest else (k', v') :: dictInsert k v rest

/-- The shadow store `self.changedb`: entry identifier → attribute map. -/
abbrev ChangeDb := List (String × AttrMap)

/-- Lookup in the shadow store (Python `self.changedb[uuid]` when present). -/
def dbLookup (u : String) : ChangeDb → Option AttrMap
  | [] => none
  | (u', m) :: rest => if u' = u then some m else dbLookup u rest

/-- `self.changedb[uuid] = attributes`: replace in place or append. -/
def dbInsert (u : String) (m : AttrMap) : ChangeDb → ChangeDb
  | [] => [(u, m)]
  | (u', m') :: rest =>
    if u' = u then (u', m) :: rest else (u', m') :: dbInsert u m rest

/-- `del self.changedb[uuid]`: drop the binding for `u`. -/
def dbErase (u : String) : ChangeDb → ChangeDb
  | [] => []
  | (u', m') :: rest =>
    if u' = u then rest else (u', m') :: dbErase u rest

/-- One `post_change` call, i.e. one change event handed to the publisher:
distinguished name, change type (`"add"`, `"modify"` or `"delete"`),
previous attribute map, new attribute map.  The dn is a `Value` because
`syncrepl_delete` reads it back out of the stored attribute map. -/
structure ChangeEvent where
  dn : Value
  change_type : String
  old_attributes : AttrMap
  new_attributes : AttrMap


/-- The mutable consumer state of a `SyncReplClient` instance: the shadow
store `changedb`, the present-this-cycle set `__presentUUIDs` (a dict whose
keys alone matter), the phase flag `sync_done`, and the resume `cookie`. -/
structure ClientState where
  changedb : ChangeDb
  presentUUIDs : List String
  sync_done : Bool
  cookie : Option String


/-- The state built by `SyncReplClient.__init__`. -/
def initState : ClientState :=
  { changedb := [], presentUUIDs := [], sync_done := false, cookie := none }

/-- `syncrepl_entry(dn, attributes, uuid)` (lines 48-59): classify as
modify (capturing the stored map as previous) if `uuid` is known, else as
add with an empty previous map; set `attributes['dn'] = dn`; store the map
under `uuid`; publish the change only when `sync_done` is true. -/
def syncrepl_entry (st : ClientState) (dn : String) (attributes : AttrMap)
    (uuid : String) : ClientState × List ChangeEvent :=
  let classified : String × AttrMap :=
    match dbLookup uuid st.changedb with
    | some prev => ("modify", prev)
    | none => ("add", [])
  let attributes2 := dictInsert "dn" (Value.str dn) attributes
  let st2 := { st with changedb := dbInsert uuid attributes2 st.changedb }
  if st.sync_done then
    (st2, [{ dn := Value.str dn, change_type := classified.1,
             old_attributes := classified.2, new_attributes := attributes2 }])
  else
    (st2, [])

/-- The `for uuid in uuids` loop body of `syncrepl_delete`: read the stored
map and its `'dn'` value (a missing key is a `KeyError`, modelled `none`),
publish a delete event, and remove the identifier from the store. -/
def deleteLoop (st : ClientState) : List String → Option (ClientState × List ChangeEvent)
  | [] => some (st, [])
  | u :: rest =>
    match dbLookup u st.changedb with
    | none => none
    | some attrs =>
      match lookupKey "dn" attrs with
      | none => none
      | some d =>
        let ev : ChangeEvent :=
          { dn := d, change_type := "delete", old_attributes := attrs,
            new_attributes := [] }
        match deleteLoop { st with changedb := dbErase u st.changedb } rest with
        | some (st2, evs) => some (st2, ev :: evs)
        | none => none

/-- `syncrepl_delete(uuids)` (lines 61-67): keep only identifiers known in
`changedb`, then for each publish a delete event (unconditionally, in both
phases) and remove it from the store. -/
def syncrepl_delete (st : ClientState) (uuids : List String) :
    Option (ClientState × List ChangeEvent) :=
  deleteLoop st (uuids.filter (fun u => (dbLookup u st.changedb).isSome))

/-- `self.__presentUUIDs[uuid] = True` over a list of identifiers: record
each as a dict key (existing keys keep their position, membership is what
matters). -/
def markPresent (present : List String) : List String → List String
  | [] => present
  | u :: rest => markPresent (if u ∈ present then present else present ++ [u]) rest

/-- `syncrepl_present(uuids, refreshDeletes)` (lines 69-84).  With
`uuids = none` (end-of-presence marker): when `refreshDeletes` is false,
every stored identifier not marked present this cycle — except the literal
key `'ldap_cookie'` — is passed to `syncrepl_delete`; either way the
present set is cleared.  With `uuids` given: `refreshDeletes = true` is an
explicit deletion batch, otherwise the identifiers are marked present. -/
def syncrepl_present (st : ClientState) (uuids : Option (List String))
    (refreshDeletes : Bool) : Option (ClientState × List ChangeEvent) :=
  match uuids with
  | none =>
    if refreshDeletes = false then
      let deleted_entries :=
        (st.changedb.map Prod.fst).filter
          (fun u => decide (u ∉ st.presentUUIDs ∧ u ≠ "ldap_cookie"))
      match syncrepl_delete st deleted_entries with
      | some (st2, evs) => some ({ st2 with presentUUIDs := [] }, evs)
      | none => none
    else
      some ({ st with presentUUIDs := [] }, [])
  | some us =>
    if refreshDeletes then
      syncrepl_delete st us
    else
      some ({ st with presentUUIDs := markPresent st.presentUUIDs us }, [])

/-- `syncrepl_refreshdone()` (lines 86-88): flip the phase flag. -/
def syncrepl_refreshdone (st : ClientState) : ClientState × List ChangeEvent :=
  ({ st with sync_done := true }, [])

/-- One protocol callback delivered by the directory client. -/
inductive Callback where
  | entry (dn : String) (attributes : AttrMap) (uuid : String)
  | present (uuids : Option (List String)) (refreshDeletes : Bool)
  | del (uuids : List String)
  | refreshdone


/-- Dispatch one callback against the consumer state. -/
def step (st : ClientState) : Callback → Option (ClientState × List ChangeEvent)
  | Callback.entry dn attributes uuid => some (syncrepl_entry st dn attributes uuid)
  | Callback.present uuids refreshDeletes => syncrepl_present st uuids refreshDeletes
  | Callback.del uuids => syncrepl_delete st uuids
  | Callback.refreshdone => some (syncrepl_refreshdone st)

/-- Run a sequence of callbacks, concatenating the published events in
order; `none` models an uncaught exception in a handler. -/
def run (st : ClientState) : List Callback → Option (ClientState × List ChangeEvent)
  | [] => some (st, [])
  | c :: rest =>
    match step st c with
    | none => none
    | some (st2, evs) =>
      match run st2 rest with
      | some (st3, evs2) => some (st3, evs ++ evs2)
      | none => none

/-- The JSON body built by `post_change` (lines 91-103) before the HTTP
PUT: each piece passed through `stringify`. -/
structure Payload where
  dn : Value
  change_type : String
  old_attributes : Value
  new_attributes : Value


/-- Building the `js` dict in `post_change`: `stringify` is applied to the
dn and both attribute maps outside any `try` block, so a decode failure
(`none`) propagates out of `post_change`. -/
def post_change_payload (dn : Value) (attributes previous_attributes : AttrMap)
    (change_type : String) : Option Payload :=
  match stringify dn, stringify (Value.dict previous_attributes),
      stringify (Value.dict attributes) with
  | some d, some o, some n =>
    some { dn := d, change_type := change_type, old_attributes := o,
           new_attributes := n }
  | _, _, _ => none

/-- Outcome of one iteration of the `while True` loop in `main`
(lines 129-168), abstracting the directory server's behaviour:
`ldap.INVALID_CREDENTIALS` at bind, `ldap.SERVER_DOWN` at bind,
`KeyboardInterrupt` during polling, any other exception during polling,
or `syncrepl_poll` returning falsy (search exhausted). -/
inductive AttemptOutcome where
  | invalidCredentials
  | serverDown
  | pollInterrupt
  | pollException
  | pollExhausted
deriving DecidableEq

/-- An observable action of `main`: constructing a fresh `SyncReplClient`
(whose consumer state is the given freshly-initialized state), or a
`time.sleep` of the given number of seconds. -/
inductive MainAction where
  | connect (fresh : ClientState)
  | sleep (seconds : Nat)

/-- The `while True` loop of `main`, driven by a finite list of per-attempt
outcomes.  Result: `some code` when the process exits with that status
(`sys.exit(1)` on invalid credentials; `return` — hence status 0 — on
`KeyboardInterrupt`), `none` when all listed attempts are consumed and the
loop is still running; paired with the trace of connect/sleep actions.
Every iteration constructs a fresh client before binding, and a failed
bind or a polling exception sleeps 5 seconds before the next iteration. -/
def mainRun : List AttemptOutcome → Option Nat × List MainAction
  | [] => (none, [])
  | o :: rest =>
    match o with
    | AttemptOutcome.invalidCredentials =>
      (some 1, [MainAction.connect initState])
    | AttemptOutcome.serverDown =>
      ((mainRun rest).1,
        MainAction.connect initState :: MainAction.sleep 5 :: (mainRun rest).2)
    | AttemptOutcome.pollInterrupt =>
      (some 0, [MainAction.connect initState])
    | AttemptOutcome.pollException =>
      ((mainRun rest).1,
        MainAction.connect initState :: MainAction.sleep 5 :: (mainRun rest).2)
    | AttemptOutcome.pollExhausted =>
      ((mainRun rest).1, MainAction.connect initState :: (mainRun rest).2)

/-- Does this outcome terminate the process (exit or return)? -/
def isTerminal : AttemptOutcome → Bool
  | AttemptOutcome.invalidCredentials => true
  | AttemptOutcome.pollInterrupt => true
  | _ => false

/-- One `syncrepl_entry` callback invocation. -/
structure EntryCall where
  dn : String
  attributes : AttrMap
  uuid : String

/-- The attribute map `syncrepl_entry` stores for a call: the call's
attributes with `'dn'` set to the entry's distinguished name. -/
def storedOf (c : EntryCall) : AttrMap :=
  dictInsert "dn" (Value.str c.dn) c.attributes

/-- Apply a sequence of `syncrepl_entry` calls to a state. -/
def entriesApply (st : ClientState) : List EntryCall → ClientState
  | [] => st
  | c :: rest => entriesApply (syncrepl_entry st c.dn c.attributes c.uuid).1 rest

/-- The events published by a sequence of `syncrepl_entry` calls. -/
def entriesEvents (st : ClientState) : List EntryCall → List ChangeEvent
  | [] => []
  | c :: rest =>
    (syncrepl_entry st c.dn c.attributes c.uuid).2 ++
      entriesEvents (syncrepl_entry st c.dn c.attributes c.uuid).1 rest

/-- The latest call in the list whose identifier is `u` (spec side:
"the attribute map of its latest call"). -/
def lastEntryFor (u : String) : List EntryCall → Option EntryCall
  | [] => none
  | c :: rest =>
    match lastEntryFor u rest with
    | some c2 => some c2
    | none => if c.uuid = u then some c else none

/-- Modelled from the spec's words, for comparison with the code: the
event each `onEntry` call should yield.  Given the calls already processed
(`earlier`), the next call is an Add with empty prior map when its
identifier has not occurred before, and otherwise a Modify whose prior map
is the map stored by the latest earlier call for that identifier. -/
def specEntryEvents (earlier : List EntryCall) : List EntryCall → List ChangeEvent
  | [] => []
  | c :: rest =>
    let ev : ChangeEvent :=
      match lastEntryFor c.uuid earlier with
      | some c2 =>
        { dn := Value.str c.dn, change_type := "modify",
          old_attributes := storedOf c2, new_attributes := storedOf c }
      | none =>
        { dn := Value.str c.dn, change_type := "add",
          old_attributes := [], new_attributes := storedOf c }
    ev :: specEntryEvents (earlier ++ [c]) rest


theorem stringifyList_nil : stringifyList [] = some [] := by
  rw [stringifyList]

theorem stringifyList_cons_bytes (bs : List Nat) (rest : List Value) :
    stringifyList (Value.bytes bs :: rest) =
      match decodeBytes bs, stringifyList rest with
      | some s, some r => some (Value.str s :: r)
      | _, _ => none := by
  rw [stringifyList]

theorem stringifyList_cons_list (els rest : List Value) :
    stringifyList (Value.list els :: rest) =
      match stringifyList els, stringifyList rest with
      | some w, some r => some (Value.list w :: r)
      | _, _ => none := by
  rw [stringifyList]

theorem stringifyList_cons_str (s : String) (rest : List Value) :
    stringifyList (Value.str s :: rest) = (stringifyList rest).map (Value.str s :: ·) := by
  rw [stringifyList] <;> intro _ h <;> cases h

theorem stringifyList_cons_dict (kvs : List (String × Value)) (rest : List Value) :
    stringifyList (Value.dict kvs :: rest) = (stringifyList rest).map (Value.dict kvs :: ·) := by
  rw [stringifyList] <;> intro _ h <;> cases h

theorem stringifyList_idem (els : List Value) :
    ∀ r, stringifyList els = some r → stringifyList r = some r := by
  induction els using stringifyList.induct with
  | case1 =>
    intro r h
    rw [stringifyList_nil] at h
    cases h
    exact stringifyList_nil
  | case2 bs rest s r0 hrest hdec ih =>
    intro r h
    rw [stringifyList_cons_bytes, hdec, hrest] at h
    cases h
    rw [stringifyList_cons_str, ih r0 hrest]
    rfl
  | case3 bs rest hfail ih =>
    intro r h
    rw [stringifyList_cons_bytes] at h
    match hd : decodeBytes bs, hr : stringifyList rest with
    | some s, some r0 => exact (hfail s r0 hd hr).elim
    | some s, none => rw [hd, hr] at h; cases h
    | none, _ => rw [hd] at h; cases h
  | case4 els2 rest w r0 hrest hels ih1 ih2 =>
    intro r h
    rw [stringifyList_cons_list, hels, hrest] at h
    cases h
    rw [stringifyList_cons_list, ih1 w hels, ih2 r0 hrest]
  | case5 els2 rest hfail ih1 ih2 =>
    intro r h
    rw [stringifyList_cons_list] at h
    match hw : stringifyList els2, hr : stringifyList rest with
    | some w, some r0 => exact (hfail w r0 hw hr).elim
    | some w, none => rw [hw, hr] at h; cases h
    | none, _ => rw [hw] at h; cases h
  | case6 v rest h1 h2 ih =>
    intro r h
    cases v with
    | bytes bs => exact (h1 bs rfl).elim
    | list els2 => exact (h2 els2 rfl).elim
    | str s =>
      rw [stringifyList_cons_str] at h
      match hr : stringifyList rest with
      | some r0 =>
        rw [hr] at h
        cases h
        rw [stringifyList_cons_str, ih r0 hr]
        rfl
      | none => rw [hr] at h; cases h
    | dict kvs =>
      rw [stringifyList_cons_dict] at h
      match hr : stringifyList rest with
      | some r0 =>
        rw [hr] at h
        cases h
        rw [stringifyList_cons_dict, ih r0 hr]
        rfl
      | none => rw [hr] at h; cases h


theorem stringifyDict_nil : stringifyDict [] = some [] := rfl

theorem stringifyDict_cons_bytes (k : String) (bs : List Nat) (rest : List (String × Value)) :
    stringifyDict ((k, Value.bytes bs) :: rest) =
      match decodeBytes bs, stringifyDict rest with
      | some s, some r => some ((k, Value.str s) :: r)
      | _, _ => none := rfl

theorem stringifyDict_cons_list (k : String) (els : List Value) (rest : List (String × Value)) :
    stringifyDict ((k, Value.list els) :: rest) =
      match stringifyList els, stringifyDict rest with
      | some w, some r => some ((k, Value.list w) :: r)
      | _, _ => none := rfl

theorem stringifyDict_cons_str (k : String) (s : String) (rest : List (String × Value)) :
    stringifyDict ((k, Value.str s) :: rest) =
      (stringifyDict rest).map ((k, Value.str s) :: ·) := rfl

theorem stringifyDict_cons_dict (k : String) (kvs : List (String × Value))
    (rest : List (String × Value)) :
    stringifyDict ((k, Value.dict kvs) :: rest) =
      (stringifyDict rest).map ((k, Value.dict kvs) :: ·) := rfl

theorem stringifyDict_idem (kvs : List (String × Value)) :
    ∀ r, stringifyDict kvs = some r → stringifyDict r = some r := by
  induction kvs with
  | nil =>
    intro r h
    cases h
    rfl
  | cons kv rest ih =>
    obtain ⟨k, v⟩ := kv
    intro r h
    cases v with
    | bytes bs =>
      rw [stringifyDict_cons_bytes] at h
      match hd : decodeBytes bs, hr : stringifyDict rest with
      | some s, some r0 =>
        rw [hd, hr] at h
        cases h
        rw [stringifyDict_cons_str, ih r0 hr]
        rfl
      | some s, none => rw [hd, hr] at h; cases h
      | none, _ => rw [hd] at h; cases h
    | list els =>
      rw [stringifyDict_cons_list] at h
      match hw : stringifyList els, hr : stringifyDict rest with
      | some w, some r0 =>
        rw [hw, hr] at h
        cases h
        rw [stringifyDict_cons_list, stringifyList_idem els w hw, ih r0 hr]
      | some w, none => rw [hw, hr] at h; cases h
      | none, _ => rw [hw] at h; cases h
    | str s =>
      rw [stringifyDict_cons_str] at h
      match hr : stringifyDict rest with
      | some r0 =>
        rw [hr] at h
        cases h
        rw [stringifyDict_cons_str, ih r0 hr]
        rfl
      | none => rw [hr] at h; cases h
    | dict kvs2 =>
      rw [stringifyDict_cons_dict] at h
      match hr : stringifyDict rest with
      | some r0 =>
        rw [hr] at h
        cases h
        rw [stringifyDict_cons_dict, ih r0 hr]
        rfl
      | none => rw [hr] at h; cases h

/-- C9: `stringify` is idempotent in the Kleisli sense: when a first
application succeeds, a second application succeeds and changes nothing. -/
theorem c9_stringify_idempotent (v w : Value) (h : stringify v = some w) :
    stringify w = some w := by
  cases v with
  | str s =>
    cases h
    rfl
  | bytes bs =>
    simp only [stringify] at h
    match hd : decodeBytes bs with
    | some s => rw [hd] at h; cases h; rfl
    | none => rw [hd] at h; cases h
  | list els =>
    simp only [stringify] at h
    match hl : stringifyList els with
    | some r =>
      rw [hl] at h
      cases h
      simp only [stringify]
      rw [stringifyList_idem els r hl]
      rfl
    | none => rw [hl] at h; cases h
  | dict kvs =>
    simp only [stringify] at h
    match hd : stringifyDict kvs with
    | some r =>
      rw [hd] at h
      cases h
      simp only [stringify]
      rw [stringifyDict_idem kvs r hd]
      rfl
    | none => rw [hd] at h; cases h

/-- Witness for C9 at a concrete nested value. -/
theorem c9_stringify_idempotent_witness :
    stringify (Value.dict [("k", Value.list [Value.str "h", Value.str "x"])]) =
      some (Value.dict [("k", Value.list [Value.str "h", Value.str "x"])]) :=
  c9_stringify_idempotent
    (Value.dict [("k", Value.list [Value.bytes [104], Value.str "x"])])
    (Value.dict [("k", Value.list [Value.str "h", Value.str "x"])])
    (by rw [stringify, stringifyDict_cons_list, stringifyList_cons_bytes,
          stringifyList_cons_str, stringifyList_nil, stringifyDict_nil]
        rfl)


theorem hasBytes_str (s : String) : hasBytes (Value.str s) = false := by
  rw [hasBytes]

theorem hasBytes_bytes (bs : List Nat) : hasBytes (Value.bytes bs) = true := by
  rw [hasBytes]

theorem hasBytes_list_nil : hasBytes (Value.list []) = false := by
  rw [hasBytes]

theorem hasBytes_list_cons (e : Value) (rest : List Value) :
    hasBytes (Value.list (e :: rest)) = (hasBytes e || hasBytes (Value.list rest)) := by
  rw [hasBytes]

theorem hasBytes_dict_nil : hasBytes (Value.dict []) = false := by
  rw [hasBytes]

theorem hasBytes_dict_cons (k : String) (v : Value) (rest : List (String × Value)) :
    hasBytes (Value.dict ((k, v) :: rest)) = (hasBytes v || hasBytes (Value.dict rest)) := by
  rw [hasBytes]

theorem noDict_str (s : String) : noDict (Value.str s) = true := by
  rw [noDict]

theorem noDict_bytes (bs : List Nat) : noDict (Value.bytes bs) = true := by
  rw [noDict]

theorem noDict_dict (kvs : List (String × Value)) : noDict (Value.dict kvs) = false := by
  rw [noDict]

theorem noDict_list_nil : noDict (Value.list []) = true := by
  rw [noDict]

theorem noDict_list_cons (e : Value) (rest : List Value) :
    noDict (Value.list (e :: rest)) = (noDict e && noDict (Value.list rest)) := by
  rw [noDict]

theorem allValid_str (s : String) : allValid (Value.str s) = true := by
  rw [allValid]

theorem allValid_bytes (bs : List Nat) : allValid (Value.bytes bs) = (decodeBytes bs).isSome := by
  rw [allValid]

theorem allValid_list_nil : allValid (Value.list []) = true := by
  rw [allValid]

theorem allValid_list_cons (e : Value) (rest : List Value) :
    allValid (Value.list (e :: rest)) = (allValid e && allValid (Value.list rest)) := by
  rw [allValid]

theorem allValid_dict_nil : allValid (Value.dict []) = true := by
  rw [allValid]

theorem allValid_dict_cons (k : String) (v : Value) (rest : List (String × Value)) :
    allValid (Value.dict ((k, v) :: rest)) = (allValid v && allValid (Value.dict rest)) := by
  rw [allValid]

theorem stringifyList_noDict_noBytes (els : List Value) :
    ∀ r, noDict (Value.list els) = true → stringifyList els = some r →
      hasBytes (Value.list r) = false := by
  induction els using stringifyList.induct with
  | case1 =>
    intro r hnd h
    rw [stringifyList_nil] at h
    cases h
    exact hasBytes_list_nil
  | case2 bs rest s r0 hrest hdec ih =>
    intro r hnd h
    rw [noDict_list_cons, Bool.and_eq_true] at hnd
    rw [stringifyList_cons_bytes, hdec, hrest] at h
    cases h
    rw [hasBytes_list_cons, hasBytes_str, ih r0 hnd.2 hrest]
    rfl
  | case3 bs rest hfail ih =>
    intro r hnd h
    rw [stringifyList_cons_bytes] at h
    match hd : decodeBytes bs, hr : stringifyList rest with
    | some s, some r0 => exact (hfail s r0 hd hr).elim
    | some s, none => rw [hd, hr] at h; cases h
    | none, _ => rw [hd] at h; cases h
  | case4 els2 rest w r0 hrest hels ih1 ih2 =>
    intro r hnd h
    rw [noDict_list_cons, Bool.and_eq_true] at hnd
    rw [stringifyList_cons_list, hels, hrest] at h
    cases h
    rw [hasBytes_list_cons, ih1 w hnd.1 hels, ih2 r0 hnd.2 hrest]
    rfl
  | case5 els2 rest hfail ih1 ih2 =>
    intro r hnd h
    rw [stringifyList_cons_list] at h
    match hw : stringifyList els2, hr : stringifyList rest with
    | some w, some r0 => exact (hfail w r0 hw hr).elim
    | some w, none => rw [hw, hr] at h; cases h
    | none, _ => rw [hw] at h; cases h
  | case6 v rest h1 h2 ih =>
    intro r hnd h
    rw [noDict_list_cons, Bool.and_eq_true] at hnd
    cases v with
    | bytes bs => exact (h1 bs rfl).elim
    | list els2 => exact (h2 els2 rfl).elim
    | str s =>
      rw [stringifyList_cons_str] at h
      match hr : stringifyList rest with
      | some r0 =>
        rw [hr] at h
        cases h
        rw [hasBytes_list_cons, hasBytes_str, ih r0 hnd.2 hr]
        rfl
      | none => rw [hr] at h; cases h
    | dict kvs =>
      rw [noDict_dict] at hnd
      cases hnd.1


theorem stringifyDict_noDict_noBytes (kvs : List (String × Value)) :
    ∀ r, (kvs.all fun p => noDict p.2) = true → stringifyDict kvs = some r →
      hasBytes (Value.dict r) = false := by
  induction kvs with
  | nil =>
    intro r hnd h
    cases h
    exact hasBytes_dict_nil
  | cons kv rest ih =>
    obtain ⟨k, v⟩ := kv
    intro r hnd h
    rw [List.all_cons, Bool.and_eq_true] at hnd
    cases v with
    | bytes bs =>
      rw [stringifyDict_cons_bytes] at h
      match hd : decodeBytes bs, hr : stringifyDict rest with
      | some s, some r0 =>
        rw [hd, hr] at h
        cases h
        rw [hasBytes_dict_cons, hasBytes_str, ih r0 hnd.2 hr]
        rfl
      | some s, none => rw [hd, hr] at h; cases h
      | none, _ => rw [hd] at h; cases h
    | list els =>
      rw [stringifyDict_cons_list] at h
      match hw : stringifyList els, hr : stringifyDict rest with
      | some w, some r0 =>
        rw [hw, hr] at h
        cases h
        rw [hasBytes_dict_cons, stringifyList_noDict_noBytes els w hnd.1 hw,
          ih r0 hnd.2 hr]
        rfl
      | some w, none => rw [hw, hr] at h; cases h
      | none, _ => rw [hw] at h; cases h
    | str s =>
      rw [stringifyDict_cons_str] at h
      match hr : stringifyDict rest with
      | some r0 =>
        rw [hr] at h
        cases h
        rw [hasBytes_dict_cons, hasBytes_str, ih r0 hnd.2 hr]
        rfl
      | none => rw [hr] at h; cases h
    | dict kvs2 =>
      rw [noDict_dict] at hnd
      cases hnd.1

/-- No map strictly below the top level: the input is either a dict all of
whose values are dict-free, or itself dict-free. -/
def topNoDict : Value → Bool
  | Value.dict kvs => kvs.all fun p => noDict p.2
  | v => noDict v

/-- C6, counterexample: `stringify` does not recurse into a dict nested
inside a dict, so a binary value at nesting depth two survives conversion
unchanged — the claim that the result contains no binary value at any
nesting depth is false. -/
theorem c6_counterexample :
    stringify (Value.dict [("a", Value.dict [("b", Value.bytes [104])])]) =
        some (Value.dict [("a", Value.dict [("b", Value.bytes [104])])]) ∧
      hasBytes (Value.dict [("a", Value.dict [("b", Value.bytes [104])])]) = true := by
  constructor
  · rfl
  · rw [hasBytes_dict_cons, hasBytes_dict_cons, hasBytes_bytes]
    rfl

/-- C6, amended: `stringify` eliminates every binary value provided no map
occurs strictly below the top level (the top value may be a map whose
values are built from text, binary and arbitrarily nested lists); a map
nested inside a map or inside a list is left unchanged and may keep binary
values. -/
theorem c6_stringify_no_bytes_amended (v w : Value) (h1 : topNoDict v = true)
    (h2 : stringify v = some w) : hasBytes w = false := by
  cases v with
  | str s =>
    cases h2
    exact hasBytes_str s
  | bytes bs =>
    simp only [stringify] at h2
    match hd : decodeBytes bs with
    | some s => rw [hd] at h2; cases h2; exact hasBytes_str s
    | none => rw [hd] at h2; cases h2
  | list els =>
    simp only [stringify] at h2
    match hl : stringifyList els with
    | some r =>
      rw [hl] at h2
      cases h2
      exact stringifyList_noDict_noBytes els r h1 hl
    | none => rw [hl] at h2; cases h2
  | dict kvs =>
    simp only [stringify] at h2
    match hd : stringifyDict kvs with
    | some r =>
      rw [hd] at h2
      cases h2
      exact stringifyDict_noDict_noBytes kvs r h1 hd
    | none => rw [hd] at h2; cases h2

/-- Witness for C6 (amended) at a concrete nested value. -/
theorem c6_stringify_no_bytes_amended_witness :
    hasBytes (Value.dict [("k", Value.list [Value.str "h", Value.str "x"])]) = false :=
  c6_stringify_no_bytes_amended
    (Value.dict [("k", Value.list [Value.bytes [104], Value.str "x"])])
    (Value.dict [("k", Value.list [Value.str "h", Value.str "x"])])
    (by rw [topNoDict, List.all_cons, List.all_nil, noDict_list_cons, noDict_bytes,
          noDict_list_cons, noDict_str, noDict_list_nil]
        rfl)
    (by rw [stringify, stringifyDict_cons_list, stringifyList_cons_bytes,
          stringifyList_cons_str, stringifyList_nil, stringifyDict_nil]
        rfl)


theorem stringifyList_allValid_isSome (els : List Value) :
    allValid (Value.list els) = true → (stringifyList els).isSome = true := by
  induction els using stringifyList.induct with
  | case1 =>
    intro hv
    rw [stringifyList_nil]
    rfl
  | case2 bs rest s r0 hrest hdec ih =>
    intro hv
    rw [stringifyList_cons_bytes, hdec, hrest]
    rfl
  | case3 bs rest hfail ih =>
    intro hv
    rw [allValid_list_cons, Bool.and_eq_true, allValid_bytes] at hv
    match hd : decodeBytes bs with
    | none => rw [hd] at hv; cases hv.1
    | some s =>
      have h2 := ih hv.2
      match hr : stringifyList rest with
      | none => rw [hr] at h2; cases h2
      | some r0 => exact (hfail s r0 hd hr).elim
  | case4 els2 rest w r0 hrest hels ih1 ih2 =>
    intro hv
    rw [stringifyList_cons_list, hels, hrest]
    rfl
  | case5 els2 rest hfail ih1 ih2 =>
    intro hv
    rw [allValid_list_cons, Bool.and_eq_true] at hv
    have h1 := ih1 hv.1
    have h2 := ih2 hv.2
    match hw : stringifyList els2 with
    | none => rw [hw] at h1; cases h1
    | some w =>
      match hr : stringifyList rest with
      | none => rw [hr] at h2; cases h2
      | some r0 => exact (hfail w r0 hw hr).elim
  | case6 v rest h1 h2 ih =>
    intro hv
    rw [allValid_list_cons, Bool.and_eq_true] at hv
    have hrest := ih hv.2
    cases v with
    | bytes bs => exact (h1 bs rfl).elim
    | list els2 => exact (h2 els2 rfl).elim
    | str s =>
      rw [stringifyList_cons_str]
      match hr : stringifyList rest with
      | none => rw [hr] at hrest; cases hrest
      | some r0 => rfl
    | dict kvs =>
      rw [stringifyList_cons_dict]
      match hr : stringifyList rest with
      | none => rw [hr] at hrest; cases hrest
      | some r0 => rfl

theorem stringifyDict_allValid_isSome (kvs : List (String × Value)) :
    allValid (Value.dict kvs) = true → (stringifyDict kvs).isSome = true := by
  induction kvs with
  | nil =>
    intro hv
    rfl
  | cons kv rest ih =>
    obtain ⟨k, v⟩ := kv
    intro hv
    rw [allValid_dict_cons, Bool.and_eq_true] at hv
    have hrest := ih hv.2
    cases v with
    | bytes bs =>
      rw [allValid_bytes] at hv
      rw [stringifyDict_cons_bytes]
      match hd : decodeBytes bs with
      | none => rw [hd] at hv; cases hv.1
      | some s =>
        match hr : stringifyDict rest with
        | none => rw [hr] at hrest; cases hrest
        | some r0 => rfl
    | list els =>
      have h1 := stringifyList_allValid_isSome els hv.1
      rw [stringifyDict_cons_list]
      match hw : stringifyList els with
      | none => rw [hw] at h1; cases h1
      | some w =>
        match hr : stringifyDict rest with
        | none => rw [hr] at hrest; cases hrest
        | some r0 => rfl
    | str s =>
      rw [stringifyDict_cons_str]
      match hr : stringifyDict rest with
      | none => rw [hr] at hrest; cases hrest
      | some r0 => rfl
    | dict kvs2 =>
      rw [stringifyDict_cons_dict]
      match hr : stringifyDict rest with
      | none => rw [hr] at hrest; cases hrest
      | some r0 => rfl

/-- C7, counterexample: on a binary value that is not valid UTF-8,
`str(b, 'utf-8')` raises `UnicodeDecodeError` (modelled `none`) instead of
mis-decoding, and since `post_change` builds its payload outside the `try`
block, building the outbound payload fails. -/
theorem c7_counterexample :
    stringify (Value.bytes [255]) = none ∧
      post_change_payload (Value.str "x") [("a", Value.bytes [255])] [] "add" = none := by
  constructor
  · rfl
  · rfl

/-- C7, amended: the conversion is not total — it raises on invalid UTF-8
rather than mis-decoding — but it does succeed on every value all of whose
binary leaves are valid UTF-8. -/
theorem c7_stringify_total_amended (v : Value) (h : allValid v = true) :
    (stringify v).isSome = true := by
  cases v with
  | str s => rfl
  | bytes bs =>
    rw [allValid_bytes] at h
    simp only [stringify]
    match hd : decodeBytes bs with
    | none => rw [hd] at h; cases h
    | some s => rfl
  | list els =>
    have h1 := stringifyList_allValid_isSome els h
    simp only [stringify]
    match hl : stringifyList els with
    | none => rw [hl] at h1; cases h1
    | some r => rfl
  | dict kvs =>
    have h1 := stringifyDict_allValid_isSome kvs h
    simp only [stringify]
    match hd : stringifyDict kvs with
    | none => rw [hd] at h1; cases h1
    | some r => rfl

/-- Witness for C7 (amended) at a concrete valid-UTF-8 value. -/
theorem c7_stringify_total_amended_witness :
    (stringify (Value.dict [("a", Value.bytes [104, 105])])).isSome = true :=
  c7_stringify_total_amended (Value.dict [("a", Value.bytes [104, 105])])
    (by rw [allValid_dict_cons, allValid_bytes, allValid_dict_nil]
        rfl)


theorem dbLookup_dbInsert (u u2 : String) (m : AttrMap) (db : ChangeDb) :
    dbLookup u (dbInsert u2 m db) = if u2 = u then some m else dbLookup u db := by
  induction db with
  | nil => simp [dbInsert, dbLookup]
  | cons p rest ih =>
    obtain ⟨u3, m3⟩ := p
    by_cases h3 : u3 = u2
    · subst h3
      simp only [dbInsert, if_pos rfl, dbLookup]
      by_cases h4 : u3 = u
      · subst h4
        simp
      · simp [h4]
    · simp only [dbInsert, if_neg h3, dbLookup]
      by_cases h4 : u3 = u
      · subst h4
        have : ¬ u2 = u3 := fun h => h3 h.symm
        simp [this]
      · simp [h4, ih]

theorem dbLookup_dbErase_ne (u u2 : String) (db : ChangeDb) (h : u2 ≠ u) :
    dbLookup u (dbErase u2 db) = dbLookup u db := by
  induction db with
  | nil => rfl
  | cons p rest ih =>
    obtain ⟨u3, m3⟩ := p
    by_cases h3 : u3 = u2
    · subst h3
      have : ¬ u3 = u := fun h4 => h (h4 ▸ rfl)
      simp [dbErase, dbLookup, this]
    · simp only [dbErase, if_neg h3, dbLookup]
      by_cases h4 : u3 = u
      · simp [h4]
      · simp [h4, ih]

theorem dbLookup_eq_none_of_not_mem (u : String) (db : ChangeDb)
    (h : u ∉ db.map Prod.fst) : dbLookup u db = none := by
  induction db with
  | nil => rfl
  | cons p rest ih =>
    obtain ⟨u3, m3⟩ := p
    rw [List.map_cons, List.mem_cons] at h
    push_neg at h
    rw [dbLookup, if_neg (fun h2 => h.1 h2.symm)]
    exact ih h.2

theorem dbLookup_dbErase_self (u : String) (db : ChangeDb)
    (hnd : (db.map Prod.fst).Nodup) : dbLookup u (dbErase u db) = none := by
  induction db with
  | nil => rfl
  | cons p rest ih =>
    obtain ⟨u3, m3⟩ := p
    rw [List.map_cons, List.nodup_cons] at hnd
    by_cases h3 : u3 = u
    · subst h3
      rw [dbErase, if_pos rfl]
      exact dbLookup_eq_none_of_not_mem u3 rest hnd.1
    · rw [dbErase, if_neg h3, dbLookup, if_neg h3]
      exact ih hnd.2

theorem dbLookup_mem (u : String) (m : AttrMap) (db : ChangeDb)
    (h : dbLookup u db = some m) : (u, m) ∈ db := by
  induction db with
  | nil => cases h
  | cons p rest ih =>
    obtain ⟨u3, m3⟩ := p
    rw [dbLookup] at h
    by_cases h3 : u3 = u
    · rw [if_pos h3] at h
      cases h
      exact h3 ▸ List.mem_cons_self _ _
    · rw [if_neg h3] at h
      exact List.mem_cons_of_mem _ (ih h)

theorem mem_dbInsert (p : String × AttrMap) (u : String) (m : AttrMap) (db : ChangeDb)
    (h : p ∈ dbInsert u m db) : p = (u, m) ∨ p ∈ db := by
  induction db with
  | nil =>
    rw [dbInsert] at h
    rcases List.mem_singleton.mp h with h2
    exact Or.inl h2
  | cons q rest ih =>
    obtain ⟨u3, m3⟩ := q
    rw [dbInsert] at h
    by_cases h3 : u3 = u
    · rw [if_pos h3] at h
      rcases List.mem_cons.mp h with h4 | h4
      · subst h3
        exact Or.inl (by rw [h4])
      · exact Or.inr (List.mem_cons_of_mem _ h4)
    · rw [if_neg h3] at h
      rcases List.mem_cons.mp h with h4 | h4
      · exact Or.inr (h4 ▸ List.mem_cons_self _ _)
      · rcases ih h4 with h5 | h5
        · exact Or.inl h5
        · exact Or.inr (List.mem_cons_of_mem _ h5)

theorem mem_dbErase (p : String × AttrMap) (u : String) (db : ChangeDb)
    (h : p ∈ dbErase u db) : p ∈ db := by
  induction db with
  | nil => cases h
  | cons q rest ih =>
    obtain ⟨u3, m3⟩ := q
    rw [dbErase] at h
    by_cases h3 : u3 = u
    · rw [if_pos h3] at h
      exact List.mem_cons_of_mem _ h
    · rw [if_neg h3] at h
      rcases List.mem_cons.mp h with h4 | h4
      · exact h4 ▸ List.mem_cons_self _ _
      · exact List.mem_cons_of_mem _ (ih h4)

theorem lookupKey_dictInsert_self (k : String) (v : Value) (m : AttrMap) :
    lookupKey k (dictInsert k v m) = some v := by
  induction m with
  | nil => simp [dictInsert, lookupKey]
  | cons p rest ih =>
    obtain ⟨k3, v3⟩ := p
    by_cases h3 : k3 = k
    · simp [dictInsert, h3, lookupKey]
    · simp [dictInsert, h3, lookupKey, ih]

theorem syncrepl_entry_fst (st : ClientState) (dn : String) (attributes : AttrMap)
    (uuid : String) :
    (syncrepl_entry st dn attributes uuid).1 =
      { st with changedb :=
          dbInsert uuid (dictInsert "dn" (Value.str dn) attributes) st.changedb } := by
  rw [syncrepl_entry]
  split <;> rfl


/-- C2: `syncrepl_delete` on an identifier known in the shadow store
publishes exactly one delete event carrying the stored `'dn'` value and the
stored attribute map as previous attributes with an empty new map, and
removes the identifier — unconditionally, with no test of the `sync_done`
phase flag, so this holds in the Refreshing and the Persisting phase alike
(the state `st` is arbitrary and the resulting phase flag is unchanged). -/
theorem c2_delete_known (st : ClientState) (u : String) (attrs : AttrMap) (d : Value)
    (hu : dbLookup u st.changedb = some attrs)
    (hd : lookupKey "dn" attrs = some d)
    (hnd : (st.changedb.map Prod.fst).Nodup) :
    syncrepl_delete st [u] =
        some ({ st with changedb := dbErase u st.changedb },
          [{ dn := d, change_type := "delete", old_attributes := attrs,
             new_attributes := [] }]) ∧
      dbLookup u (dbErase u st.changedb) = none := by
  constructor
  · have hf : List.filter (fun x => (dbLookup x st.changedb).isSome) [u] = [u] := by
      simp [List.filter, hu]
    rw [syncrepl_delete, hf, deleteLoop, hu]
    simp only [hd, deleteLoop]
  · exact dbLookup_dbErase_self u st.changedb hnd

/-- Witness for C2 at a concrete one-entry state. -/
theorem c2_delete_known_witness :
    syncrepl_delete
          { changedb := [("u", [("dn", Value.str "cn=x")])], presentUUIDs := [],
            sync_done := false, cookie := none } ["u"] =
        some ({ changedb := [], presentUUIDs := [], sync_done := false, cookie := none },
          [{ dn := Value.str "cn=x", change_type := "delete",
             old_attributes := [("dn", Value.str "cn=x")], new_attributes := [] }]) ∧
      dbLookup "u" (dbErase "u" [("u", [("dn", Value.str "cn=x")])]) = none :=
  c2_delete_known
    { changedb := [("u", [("dn", Value.str "cn=x")])], presentUUIDs := [],
      sync_done := false, cookie := none }
    "u" [("dn", Value.str "cn=x")] (Value.str "cn=x") (by rfl) (by rfl) (by simp)

/-- C5: `syncrepl_delete` is idempotent. For an identifier known in the
shadow store, the first call publishes exactly one delete event and removes
it; a second call with the same identifier publishes nothing and leaves the
state unchanged; and in general a call with an unknown identifier is
silently ignored (no event, no state change, no error). -/
theorem c5_delete_idempotent (st : ClientState) (u : String) (attrs : AttrMap) (d : Value)
    (hu : dbLookup u st.changedb = some attrs)
    (hd : lookupKey "dn" attrs = some d)
    (hnd : (st.changedb.map Prod.fst).Nodup) :
    (syncrepl_delete st [u] =
        some ({ st with changedb := dbErase u st.changedb },
          [{ dn := d, change_type := "delete", old_attributes := attrs,
             new_attributes := [] }])) ∧
      (syncrepl_delete { st with changedb := dbErase u st.changedb } [u] =
        some ({ st with changedb := dbErase u st.changedb }, [])) ∧
      (∀ st2 : ClientState, ∀ u2 : String, dbLookup u2 st2.changedb = none →
        syncrepl_delete st2 [u2] = some (st2, [])) := by
  have hgen : ∀ st2 : ClientState, ∀ u2 : String, dbLookup u2 st2.changedb = none →
      syncrepl_delete st2 [u2] = some (st2, []) := by
    intro st2 u2 h2
    have hf : List.filter (fun x => (dbLookup x st2.changedb).isSome) [u2] = [] := by
      simp [List.filter, h2]
    rw [syncrepl_delete, hf, deleteLoop]
  refine ⟨?_, ?_, hgen⟩
  · have hf : List.filter (fun x => (dbLookup x st.changedb).isSome) [u] = [u] := by
      simp [List.filter, hu]
    rw [syncrepl_delete, hf, deleteLoop, hu]
    simp only [hd, deleteLoop]
  · exact hgen _ u (dbLookup_dbErase_self u st.changedb hnd)

/-- Witness for C5 at a concrete one-entry state. -/
theorem c5_delete_idempotent_witness :
    (syncrepl_delete
        { changedb := [("u", [("dn", Value.str "cn=x")])], presentUUIDs := [],
          sync_done := true, cookie := none } ["u"] =
      some ({ changedb := [], presentUUIDs := [], sync_done := true, cookie := none },
        [{ dn := Value.str "cn=x", change_type := "delete",
           old_attributes := [("dn", Value.str "cn=x")], new_attributes := [] }])) ∧
      (syncrepl_delete
          { changedb := [], presentUUIDs := [], sync_done := true, cookie := none } ["u"] =
        some ({ changedb := [], presentUUIDs := [], sync_done := true, cookie := none }, [])) ∧
      (∀ st2 : ClientState, ∀ u2 : String, dbLookup u2 st2.changedb = none →
        syncrepl_delete st2 [u2] = some (st2, [])) :=
  c5_delete_idempotent
    { changedb := [("u", [("dn", Value.str "cn=x")])], presentUUIDs := [],
      sync_done := true, cookie := none }
    "u" [("dn", Value.str "cn=x")] (Value.str "cn=x") (by rfl) (by rfl) (by simp)


theorem syncrepl_entry_snd_refreshing (st : ClientState) (dn : String)
    (attributes : AttrMap) (uuid : String) (hsd : st.sync_done = false) :
    (syncrepl_entry st dn attributes uuid).2 = [] := by
  rw [syncrepl_entry]
  simp [hsd]

theorem deleteLoop_events_delete (us : List String) :
    ∀ st : ClientState, ∀ p : ClientState × List ChangeEvent, deleteLoop st us = some p →
      ∀ e ∈ p.2, e.change_type = "delete" := by
  induction us with
  | nil =>
    intro st p h e he
    rw [deleteLoop] at h
    cases h
    cases he
  | cons u rest ih =>
    intro st p h e he
    rw [deleteLoop] at h
    match h1 : dbLookup u st.changedb with
    | none => simp only [h1] at h; cases h
    | some attrs =>
      simp only [h1] at h
      match h2 : lookupKey "dn" attrs with
      | none => simp only [h2] at h; cases h
      | some d =>
        simp only [h2] at h
        match h3 : deleteLoop { st with changedb := dbErase u st.changedb } rest with
        | none => simp only [h3] at h; cases h
        | some (st2, evs) =>
          simp only [h3] at h
          cases h
          rcases List.mem_cons.mp he with h4 | h4
          · rw [h4]
          · exact ih _ (st2, evs) h3 e h4

theorem syncrepl_delete_events_delete (st : ClientState) (uuids : List String)
    (p : ClientState × List ChangeEvent) (h : syncrepl_delete st uuids = some p) :
    ∀ e ∈ p.2, e.change_type = "delete" := by
  rw [syncrepl_delete] at h
  exact deleteLoop_events_delete _ st p h

/-- C1, counterexample: the claim quantifies over all three callback kinds,
but `syncrepl_delete` never consults the phase flag, so a delete for a
known identifier processed while the phase is still Refreshing (no
`syncrepl_refreshdone` anywhere in the sequence, and the final phase flag
still false) publishes a change event. -/
theorem c1_counterexample :
    run initState [Callback.entry "cn=a" [] "u1", Callback.del ["u1"]] =
      some ({ changedb := [], presentUUIDs := [], sync_done := false, cookie := none },
        [{ dn := Value.str "cn=a", change_type := "delete",
           old_attributes := [("dn", Value.str "cn=a")], new_attributes := [] }]) := rfl

/-- C1, amended: while the phase flag is still false (Refreshing), an
`onEntry` callback publishes no event, and every event a callback does
publish is a delete-path event — only deletions escape the refresh-phase
suppression. -/
theorem c1_refreshing_suppression_amended (st : ClientState) (c : Callback)
    (p : ClientState × List ChangeEvent) (hsd : st.sync_done = false)
    (h : step st c = some p) :
    (∀ e ∈ p.2, e.change_type = "delete") ∧
      (∀ dn : String, ∀ attributes : AttrMap, ∀ uuid : String,
        c = Callback.entry dn attributes uuid → p.2 = []) := by
  cases c with
  | entry dn attributes uuid =>
    rw [step] at h
    cases h
    constructor
    · intro e he
      rw [syncrepl_entry_snd_refreshing st dn attributes uuid hsd] at he
      cases he
    · intro dn2 a2 u2 hc
      exact syncrepl_entry_snd_refreshing st dn attributes uuid hsd
  | present uuids refreshDeletes =>
    rw [step] at h
    refine ⟨?_, by intro dn2 a2 u2 hc; cases hc⟩
    cases uuids with
    | none =>
      rw [syncrepl_present] at h
      by_cases hrd : refreshDeletes = false
      · rw [if_pos hrd] at h
        match h1 : syncrepl_delete st
            ((st.changedb.map Prod.fst).filter
              (fun u => decide (u ∉ st.presentUUIDs ∧ u ≠ "ldap_cookie"))) with
        | none => simp only [h1] at h; cases h
        | some (st2, evs) =>
          simp only [h1] at h
          cases h
          exact syncrepl_delete_events_delete st _ (st2, evs) h1
      · rw [if_neg hrd] at h
        cases h
        intro e he
        cases he
    | some us =>
      rw [syncrepl_present] at h
      by_cases hrd : refreshDeletes = true
      · rw [if_pos hrd] at h
        exact syncrepl_delete_events_delete st us p h
      · rw [if_neg hrd] at h
        cases h
        intro e he
        cases he
  | del uuids =>
    rw [step] at h
    refine ⟨syncrepl_delete_events_delete st uuids p h, ?_⟩
    intro dn2 a2 u2 hc
    cases hc
  | refreshdone =>
    rw [step, syncrepl_refreshdone] at h
    cases h
    refine ⟨fun e he => absurd he (List.not_mem_nil e), ?_⟩
    intro dn2 a2 u2 hc
    cases hc

/-- The concrete delete event used in the C1 witness. -/
def c1WitnessEvent : ChangeEvent :=
  { dn := Value.str "cn=x", change_type := "delete",
    old_attributes := [("dn", Value.str "cn=x")], new_attributes := [] }

/-- The concrete Refreshing-phase state used in the C1 witness. -/
def c1WitnessState : ClientState :=
  { changedb := [("u", [("dn", Value.str "cn=x")])], presentUUIDs := [],
    sync_done := false, cookie := none }

/-- Witness for C1 (amended): a delete of a known identifier during
Refreshing — the one published event is a delete event. -/
theorem c1_refreshing_suppression_amended_witness :
    (∀ e ∈ [c1WitnessEvent], e.change_type = "delete") ∧
      (∀ dn : String, ∀ attributes : AttrMap, ∀ uuid : String,
        Callback.del ["u"] = Callback.entry dn attributes uuid →
          ([c1WitnessEvent] : List ChangeEvent) = []) :=
  c1_refreshing_suppression_amended c1WitnessState (Callback.del ["u"])
    ({ changedb := [], presentUUIDs := [], sync_done := false, cookie := none },
      [c1WitnessEvent])
    (by rfl) (by rfl)


/-- C4, counterexample: the code exempts the literal identifier
`'ldap_cookie'` from presence-based deletion inference.  With SyncState
holding exactly {A, B, C} for C = `"ldap_cookie"`, marking {A, B} present
and then processing the end-of-presence marker emits no Delete event at
all, and C remains in SyncState — the claim promises exactly one Delete
event for C and its removal. -/
theorem c4_counterexample :
    run initState
        [Callback.entry "dn=a" [] "a", Callback.entry "dn=b" [] "b",
         Callback.entry "dn=c" [] "ldap_cookie",
         Callback.present (some ["a", "b"]) false,
         Callback.present none false] =
      some ({ changedb := [("a", [("dn", Value.str "dn=a")]),
                           ("b", [("dn", Value.str "dn=b")]),
                           ("ldap_cookie", [("dn", Value.str "dn=c")])],
              presentUUIDs := [], sync_done := false, cookie := none }, []) := rfl

/-- C4, amended: presence-phase deletion inference as claimed, provided
the stale identifier is not the literal string `"ldap_cookie"` (which the
code exempts): with SyncState = {A ↦ ma, B ↦ mb, C ↦ mc}, marking {A, B}
present and then processing the end-of-presence marker with
`refreshDeletes = false` emits exactly one Delete event, for C, removes C,
keeps A and B, and clears the present set. -/
theorem c4_presence_deletion_amended (a b c : String) (ma mb mc : AttrMap) (d : Value)
    (sd : Bool) (ck : Option String) (hab : a ≠ b) (hca : c ≠ a) (hcb : c ≠ b)
    (hcookie : c ≠ "ldap_cookie") (hdn : lookupKey "dn" mc = some d) :
    run { changedb := [(a, ma), (b, mb), (c, mc)], presentUUIDs := [],
          sync_done := sd, cookie := ck }
        [Callback.present (some [a, b]) false, Callback.present none false] =
      some ({ changedb := [(a, ma), (b, mb)], presentUUIDs := [],
              sync_done := sd, cookie := ck },
        [{ dn := d, change_type := "delete", old_attributes := mc,
           new_attributes := [] }]) := by
  have hac : ¬ a = c := fun h => hca h.symm
  have hbc : ¬ b = c := fun h => hcb h.symm
  simp only [run, step, syncrepl_present, if_neg, if_pos, Bool.false_eq_true,
    markPresent, List.not_mem_nil, if_false, List.mem_singleton, hab, ite_false,
    List.map_cons, List.map_nil, List.filter_cons, List.mem_cons, List.mem_singleton,
    List.not_mem_nil, or_false, decide_eq_true_eq, not_and, not_not, ite_true,
    List.filter_nil, syncrepl_delete, deleteLoop, dbLookup, dbErase, hdn, hac, hbc,
    hcookie, hca, hcb, if_true]
  have hba : ¬ b = a := fun h => hab h.symm
  simp [List.filter, dbLookup, hac, hbc, hca, hcb, hcookie, hdn, deleteLoop, dbErase,
    markPresent, hab, hba]

/-- Witness for C4 (amended) at concrete identifiers {a, b, c}. -/
theorem c4_presence_deletion_amended_witness :
    run { changedb := [("a", [("dn", Value.str "dn=a")]),
                        ("b", [("dn", Value.str "dn=b")]),
                        ("c", [("dn", Value.str "dn=c")])],
          presentUUIDs := [], sync_done := false, cookie := none }
        [Callback.present (some ["a", "b"]) false, Callback.present none false] =
      some ({ changedb := [("a", [("dn", Value.str "dn=a")]),
                            ("b", [("dn", Value.str "dn=b")])],
              presentUUIDs := [], sync_done := false, cookie := none },
        [{ dn := Value.str "dn=c", change_type := "delete",
           old_attributes := [("dn", Value.str "dn=c")], new_attributes := [] }]) :=
  c4_presence_deletion_amended "a" "b" "c"
    [("dn", Value.str "dn=a")] [("dn", Value.str "dn=b")] [("dn", Value.str "dn=c")]
    (Value.str "dn=c") false none
    (by decide) (by decide) (by decide) (by decide) (by rfl)


/-- The consumer state at the start of the Persisting phase: fresh state
with the phase flag set (as after `syncrepl_refreshdone`). -/
def persistInit : ClientState :=
  { changedb := [], presentUUIDs := [], sync_done := true, cookie := none }

theorem entriesApply_sync_done (cs : List EntryCall) :
    ∀ st : ClientState, (entriesApply st cs).sync_done = st.sync_done := by
  induction cs with
  | nil => intro st; rfl
  | cons c rest ih =>
    intro st
    rw [entriesApply, ih, syncrepl_entry_fst]

theorem entriesApply_dbLookup (cs : List EntryCall) :
    ∀ st : ClientState, ∀ u : String,
      dbLookup u (entriesApply st cs).changedb =
        match lastEntryFor u cs with
        | some c2 => some (storedOf c2)
        | none => dbLookup u st.changedb := by
  induction cs with
  | nil => intro st u; rfl
  | cons c rest ih =>
    intro st u
    rw [entriesApply, ih, lastEntryFor]
    match h2 : lastEntryFor u rest with
    | some c2 => rfl
    | none =>
      rw [syncrepl_entry_fst]
      show dbLookup u (dbInsert c.uuid (storedOf c) st.changedb) = _
      rw [dbLookup_dbInsert]
      by_cases h3 : c.uuid = u
      · rw [if_pos h3, if_pos h3]
      · rw [if_neg h3, if_neg h3]

theorem entriesApply_append_single (cs : List EntryCall) (c : EntryCall) :
    ∀ st : ClientState, entriesApply st (cs ++ [c]) =
      (syncrepl_entry (entriesApply st cs) c.dn c.attributes c.uuid).1 := by
  induction cs with
  | nil => intro st; rfl
  | cons c2 rest ih =>
    intro st
    rw [List.cons_append, entriesApply, entriesApply, ih]

theorem syncrepl_entry_snd_known (st : ClientState) (dn : String) (attributes : AttrMap)
    (uuid : String) (prev : AttrMap) (hsd : st.sync_done = true)
    (h : dbLookup uuid st.changedb = some prev) :
    (syncrepl_entry st dn attributes uuid).2 =
      [{ dn := Value.str dn, change_type := "modify", old_attributes := prev,
         new_attributes := dictInsert "dn" (Value.str dn) attributes }] := by
  rw [syncrepl_entry]
  simp [h, hsd]

theorem syncrepl_entry_snd_new (st : ClientState) (dn : String) (attributes : AttrMap)
    (uuid : String) (hsd : st.sync_done = true)
    (h : dbLookup uuid st.changedb = none) :
    (syncrepl_entry st dn attributes uuid).2 =
      [{ dn := Value.str dn, change_type := "add", old_attributes := [],
         new_attributes := dictInsert "dn" (Value.str dn) attributes }] := by
  rw [syncrepl_entry]
  simp [h, hsd]

theorem entriesEvents_spec (cs : List EntryCall) :
    ∀ earlier : List EntryCall,
      entriesEvents (entriesApply persistInit earlier) cs = specEntryEvents earlier cs := by
  induction cs with
  | nil => intro earlier; rfl
  | cons c rest ih =>
    intro earlier
    have hsd : (entriesApply persistInit earlier).sync_done = true :=
      entriesApply_sync_done earlier persistInit
    have hlk : dbLookup c.uuid (entriesApply persistInit earlier).changedb =
        match lastEntryFor c.uuid earlier with
        | some c2 => some (storedOf c2)
        | none => none :=
      entriesApply_dbLookup earlier persistInit c.uuid
    rw [entriesEvents, specEntryEvents, ← entriesApply_append_single earlier c, ih]
    match h2 : lastEntryFor c.uuid earlier with
    | some c2 =>
      rw [h2] at hlk
      rw [syncrepl_entry_snd_known _ _ _ _ _ hsd hlk]
      rfl
    | none =>
      rw [h2] at hlk
      rw [syncrepl_entry_snd_new _ _ _ _ hsd hlk]
      rfl

/-- C3: for every sequence of `onEntry` calls (arbitrary identifiers,
starting from the fresh state in either phase), the shadow store afterwards
maps exactly the identifiers that occurred to the attribute map of their
latest call (with `'dn'` recorded in it, as `syncrepl_entry` stores it),
and — observed through the published events in the Persisting phase, where
classification is visible — the first call for an identifier is classified
`add` with an empty prior map and every later call is classified `modify`
with the previously stored map as its prior map. -/
theorem c3_entry_sequences (cs : List EntryCall) :
    (∀ u : String, dbLookup u (entriesApply persistInit cs).changedb =
        (lastEntryFor u cs).map storedOf) ∧
      (∀ u : String, dbLookup u (entriesApply initState cs).changedb =
        (lastEntryFor u cs).map storedOf) ∧
      entriesEvents persistInit cs = specEntryEvents [] cs := by
  refine ⟨?_, ?_, entriesEvents_spec cs []⟩
  · intro u
    rw [entriesApply_dbLookup cs persistInit u]
    match h2 : lastEntryFor u cs with
    | some c2 => rfl
    | none => rfl
  · intro u
    rw [entriesApply_dbLookup cs initState u]
    match h2 : lastEntryFor u cs with
    | some c2 => rfl
    | none => rfl


/-- Every attribute map stored in the shadow store holds a text value
under the key `'dn'`. -/
def dbInv (db : ChangeDb) : Prop :=
  ∀ p ∈ db, ∃ d : String, lookupKey "dn" p.2 = some (Value.str d)

/-- The `'dn'` facts a published event satisfies: an add or modify event's
new attributes hold the event's dn under `'dn'`; a modify event's old
attributes hold some text dn; a delete event's old attributes hold the
event's dn under `'dn'`. -/
def evOk (e : ChangeEvent) : Prop :=
  (e.change_type = "add" ∨ e.change_type = "modify" →
      lookupKey "dn" e.new_attributes = some e.dn) ∧
    (e.change_type = "modify" →
      ∃ d : String, lookupKey "dn" e.old_attributes = some (Value.str d)) ∧
    (e.change_type = "delete" → lookupKey "dn" e.old_attributes = some e.dn)

theorem dbInv_dbErase (u : String) (db : ChangeDb) (h : dbInv db) :
    dbInv (dbErase u db) :=
  fun p hp => h p (mem_dbErase p u db hp)

theorem deleteLoop_inv (us : List String) :
    ∀ st : ClientState, ∀ p : ClientState × List ChangeEvent, dbInv st.changedb →
      deleteLoop st us = some p → dbInv p.1.changedb ∧ ∀ e ∈ p.2, evOk e := by
  induction us with
  | nil =>
    intro st p hinv h
    rw [deleteLoop] at h
    cases h
    exact ⟨hinv, fun e he => absurd he (List.not_mem_nil e)⟩
  | cons u rest ih =>
    intro st p hinv h
    rw [deleteLoop] at h
    match h1 : dbLookup u st.changedb with
    | none => simp only [h1] at h; cases h
    | some attrs =>
      simp only [h1] at h
      match h2 : lookupKey "dn" attrs with
      | none => simp only [h2] at h; cases h
      | some d =>
        simp only [h2] at h
        match h3 : deleteLoop { st with changedb := dbErase u st.changedb } rest with
        | none => simp only [h3] at h; cases h
        | some (st2, evs) =>
          simp only [h3] at h
          cases h
          have hrest := ih { st with changedb := dbErase u st.changedb } (st2, evs)
            (dbInv_dbErase u st.changedb hinv) h3
          refine ⟨hrest.1, ?_⟩
          intro e he
          rcases List.mem_cons.mp he with h4 | h4
          · subst h4
            refine ⟨fun hk => ?_, fun hk => ?_, fun _ => h2⟩
            · rcases hk with hk | hk <;> simp at hk
            · simp at hk
          · exact hrest.2 e h4

theorem syncrepl_delete_inv (st : ClientState) (uuids : List String)
    (p : ClientState × List ChangeEvent) (hinv : dbInv st.changedb)
    (h : syncrepl_delete st uuids = some p) :
    dbInv p.1.changedb ∧ ∀ e ∈ p.2, evOk e := by
  rw [syncrepl_delete] at h
  exact deleteLoop_inv _ st p hinv h

theorem step_inv (st : ClientState) (c : Callback) (p : ClientState × List ChangeEvent)
    (hinv : dbInv st.changedb) (h : step st c = some p) :
    dbInv p.1.changedb ∧ ∀ e ∈ p.2, evOk e := by
  cases c with
  | entry dn attributes uuid =>
    rw [step] at h
    cases h
    constructor
    · rw [syncrepl_entry_fst]
      intro q hq
      rcases mem_dbInsert q uuid _ st.changedb hq with h4 | h4
      · subst h4
        exact ⟨dn, lookupKey_dictInsert_self "dn" (Value.str dn) attributes⟩
      · exact hinv q h4
    · intro e he
      rw [syncrepl_entry] at he
      by_cases hsd : st.sync_done = true
      · simp only [hsd, if_true] at he
        match h1 : dbLookup uuid st.changedb with
        | some prev =>
          simp only [h1] at he
          rcases List.mem_singleton.mp he with h5
          subst h5
          refine ⟨fun _ => lookupKey_dictInsert_self "dn" (Value.str dn) attributes,
            fun _ => ?_, fun hk => by simp at hk⟩
          rcases hinv (uuid, prev) (dbLookup_mem uuid prev st.changedb h1) with ⟨d, hd⟩
          exact ⟨d, hd⟩
        | none =>
          simp only [h1] at he
          rcases List.mem_singleton.mp he with h5
          subst h5
          exact ⟨fun _ => lookupKey_dictInsert_self "dn" (Value.str dn) attributes,
            fun hk => by simp at hk, fun hk => by simp at hk⟩
      · rw [Bool.not_eq_true] at hsd
        simp only [hsd, Bool.false_eq_true, if_false] at he
        cases he
  | present uuids refreshDeletes =>
    rw [step] at h
    cases uuids with
    | none =>
      rw [syncrepl_present] at h
      by_cases hrd : refreshDeletes = false
      · rw [if_pos hrd] at h
        match h1 : syncrepl_delete st
            ((st.changedb.map Prod.fst).filter
              (fun u => decide (u ∉ st.presentUUIDs ∧ u ≠ "ldap_cookie"))) with
        | none => simp only [h1] at h; cases h
        | some (st2, evs) =>
          simp only [h1] at h
          cases h
          exact syncrepl_delete_inv st _ (st2, evs) hinv h1
      · rw [if_neg hrd] at h
        cases h
        exact ⟨hinv, fun e he => absurd he (List.not_mem_nil e)⟩
    | some us =>
      rw [syncrepl_present] at h
      by_cases hrd : refreshDeletes = true
      · rw [if_pos hrd] at h
        exact syncrepl_delete_inv st us p hinv h
      · rw [if_neg hrd] at h
        cases h
        exact ⟨hinv, fun e he => absurd he (List.not_mem_nil e)⟩
  | del uuids =>
    rw [step] at h
    exact syncrepl_delete_inv st uuids p hinv h
  | refreshdone =>
    rw [step, syncrepl_refreshdone] at h
    cases h
    exact ⟨hinv, fun e he => absurd he (List.not_mem_nil e)⟩

theorem run_inv (cbs : List Callback) :
    ∀ st : ClientState, ∀ p : ClientState × List ChangeEvent, dbInv st.changedb →
      run st cbs = some p → dbInv p.1.changedb ∧ ∀ e ∈ p.2, evOk e := by
  induction cbs with
  | nil =>
    intro st p hinv h
    rw [run] at h
    cases h
    exact ⟨hinv, fun e he => absurd he (List.not_mem_nil e)⟩
  | cons c rest ih =>
    intro st p hinv h
    rw [run] at h
    match h1 : step st c with
    | none => simp only [h1] at h; cases h
    | some (st2, evs) =>
      simp only [h1] at h
      have hstep := step_inv st c (st2, evs) hinv h1
      match h2 : run st2 rest with
      | none => simp only [h2] at h; cases h
      | some (st3, evs2) =>
        simp only [h2] at h
        cases h
        have hrest := ih st2 (st3, evs2) hstep.1 h2
        refine ⟨hrest.1, ?_⟩
        intro e he
        rcases List.mem_append.mp he with h4 | h4
        · exact hstep.2 e h4
        · exact hrest.2 e h4

/-- C10: `syncrepl_entry` writes the entry's distinguished name into the
attribute map under `'dn'` before storing it (overwriting any
directory-supplied value of that key); consequently, over every callback
sequence from the fresh state, every stored attribute map holds a text
value under `'dn'`, and every published event satisfies: add/modify new
attributes hold the event's dn under `'dn'`, modify old attributes hold
some text dn, delete old attributes hold the event's dn under `'dn'`. -/
theorem c10_dn_recorded (cbs : List Callback) (st : ClientState)
    (evs : List ChangeEvent) (h : run initState cbs = some (st, evs)) :
    (∀ st2 : ClientState, ∀ dn : String, ∀ attributes : AttrMap, ∀ uuid : String,
        (syncrepl_entry st2 dn attributes uuid).1.changedb =
            dbInsert uuid (dictInsert "dn" (Value.str dn) attributes) st2.changedb ∧
          lookupKey "dn" (dictInsert "dn" (Value.str dn) attributes) =
            some (Value.str dn)) ∧
      dbInv st.changedb ∧ ∀ e ∈ evs, evOk e := by
  refine ⟨?_, ?_⟩
  · intro st2 dn attributes uuid
    refine ⟨?_, lookupKey_dictInsert_self "dn" (Value.str dn) attributes⟩
    rw [syncrepl_entry_fst]
  · exact run_inv cbs initState (st, evs)
      (fun q hq => absurd hq (List.not_mem_nil q)) h

/-- The concrete callback sequence used in the C10 witness: an add during
Refreshing, the refresh-done marker, a modify (with a bogus client-supplied
`dn` attribute that gets overwritten) and a delete during Persisting. -/
def c10WitnessCbs : List Callback :=
  [Callback.entry "cn=x" [("a", Value.bytes [104])] "u1",
   Callback.refreshdone,
   Callback.entry "cn=x" [("dn", Value.str "bogus")] "u1",
   Callback.del ["u1"]]

/-- Witness for C10 at a concrete callback sequence. -/
theorem c10_dn_recorded_witness :
    (∀ st2 : ClientState, ∀ dn : String, ∀ attributes : AttrMap, ∀ uuid : String,
        (syncrepl_entry st2 dn attributes uuid).1.changedb =
            dbInsert uuid (dictInsert "dn" (Value.str dn) attributes) st2.changedb ∧
          lookupKey "dn" (dictInsert "dn" (Value.str dn) attributes) =
            some (Value.str dn)) ∧
      dbInv ([] : ChangeDb) ∧
      ∀ e ∈ [{ dn := Value.str "cn=x", change_type := "modify",
               old_attributes := [("a", Value.bytes [104]), ("dn", Value.str "cn=x")],
               new_attributes := [("dn", Value.str "cn=x")] },
             { dn := Value.str "cn=x", change_type := "delete",
               old_attributes := [("dn", Value.str "cn=x")],
               new_attributes := [] }], evOk e :=
  c10_dn_recorded c10WitnessCbs
    { changedb := [], presentUUIDs := [], sync_done := true, cookie := none }
    [{ dn := Value.str "cn=x", change_type := "modify",
       old_attributes := [("a", Value.bytes [104]), ("dn", Value.str "cn=x")],
       new_attributes := [("dn", Value.str "cn=x")] },
     { dn := Value.str "cn=x", change_type := "delete",
       old_attributes := [("dn", Value.str "cn=x")],
       new_attributes := [] }]
    (by rfl)


/-- C8: over any finite schedule of per-attempt outcomes, `main` exits
with status 1 exactly when the first terminating outcome is an
invalid-credentials bind failure, exits with status 0 exactly when it is a
user interruption during polling, and otherwise never exits — every
retried attempt constructs a brand-new client (fresh, empty consumer
state) and every backoff sleep is the fixed 5 seconds. -/
theorem c8_supervisor_exit_codes (os : List AttemptOutcome) :
    ((mainRun os).1 = some 1 ↔
        os.find? isTerminal = some AttemptOutcome.invalidCredentials) ∧
      ((mainRun os).1 = some 0 ↔
        os.find? isTerminal = some AttemptOutcome.pollInterrupt) ∧
      ((mainRun os).1 = none ↔ os.find? isTerminal = none) ∧
      (∀ st : ClientState, MainAction.connect st ∈ (mainRun os).2 → st = initState) ∧
      (∀ n : Nat, MainAction.sleep n ∈ (mainRun os).2 → n = 5) := by
  induction os with
  | nil =>
    refine ⟨by simp [mainRun], by simp [mainRun], by simp [mainRun], ?_, ?_⟩
    · intro st h
      exact absurd h (List.not_mem_nil _)
    · intro n h
      exact absurd h (List.not_mem_nil _)
  | cons o rest ih =>
    obtain ⟨ih1, ih2, ih3, ih4, ih5⟩ := ih
    cases o with
    | invalidCredentials =>
      refine ⟨by simp [mainRun, List.find?, isTerminal], ?_, ?_, ?_, ?_⟩
      · simp [mainRun, List.find?, isTerminal]
      · simp [mainRun, List.find?, isTerminal]
      · intro st h
        simp only [mainRun, List.mem_singleton] at h
        cases h
        rfl
      · intro n h
        simp [mainRun] at h
    | pollInterrupt =>
      refine ⟨by simp [mainRun, List.find?, isTerminal], ?_, ?_, ?_, ?_⟩
      · simp [mainRun, List.find?, isTerminal]
      · simp [mainRun, List.find?, isTerminal]
      · intro st h
        simp only [mainRun, List.mem_singleton] at h
        cases h
        rfl
      · intro n h
        simp [mainRun] at h
    | serverDown =>
      refine ⟨?_, ?_, ?_, ?_, ?_⟩
      · simpa [mainRun, List.find?, isTerminal] using ih1
      · simpa [mainRun, List.find?, isTerminal] using ih2
      · simpa [mainRun, List.find?, isTerminal] using ih3
      · intro st h
        simp only [mainRun, List.mem_cons] at h
        rcases h with h | h | h
        · cases h; rfl
        · cases h
        · exact ih4 st h
      · intro n h
        simp only [mainRun, List.mem_cons] at h
        rcases h with h | h | h
        · cases h
        · cases h; rfl
        · exact ih5 n h
    | pollException =>
      refine ⟨?_, ?_, ?_, ?_, ?_⟩
      · simpa [mainRun, List.find?, isTerminal] using ih1
      · simpa [mainRun, List.find?, isTerminal] using ih2
      · simpa [mainRun, List.find?, isTerminal] using ih3
      · intro st h
        simp only [mainRun, List.mem_cons] at h
        rcases h with h | h | h
        · cases h; rfl
        · cases h
        · exact ih4 st h
      · intro n h
        simp only [mainRun, List.mem_cons] at h
        rcases h with h | h | h
        · cases h
        · cases h; rfl
        · exact ih5 n h
    | pollExhausted =>
      refine ⟨?_, ?_, ?_, ?_, ?_⟩
      · simpa [mainRun, List.find?, isTerminal] using ih1
      · simpa [mainRun, List.find?, isTerminal] using ih2
      · simpa [mainRun, List.find?, isTerminal] using ih3
      · intro st h
        simp only [mainRun, List.mem_cons] at h
        rcases h with h | h
        · cases h; rfl
        · exact ih4 st h
      · intro n h
        simp only [mainRun, List.mem_cons] at h
        rcases h with h | h
        · cases h
        · exact ih5 n h


/-- The concrete entry-call sequence used in the C3 witness: two calls
with the same identifier, so the second is a modify. -/
def c3WitnessCalls : List EntryCall :=
  [{ dn := "cn=a", attributes := [("x", Value.str "1")], uuid := "u1" },
   { dn := "cn=a", attributes := [("x", Value.str "2")], uuid := "u1" }]

/-- Witness for C3 at a concrete two-call sequence. -/
theorem c3_entry_sequences_witness :
    (∀ u : String, dbLookup u (entriesApply persistInit c3WitnessCalls).changedb =
        (lastEntryFor u c3WitnessCalls).map storedOf) ∧
      (∀ u : String, dbLookup u (entriesApply initState c3WitnessCalls).changedb =
        (lastEntryFor u c3WitnessCalls).map storedOf) ∧
      entriesEvents persistInit c3WitnessCalls = specEntryEvents [] c3WitnessCalls :=
  c3_entry_sequences c3WitnessCalls

/-- Witness for C8 at a concrete outcome schedule: a server-down retry
followed by an invalid-credentials bind exits with status 1. -/
theorem c8_supervisor_exit_codes_witness :
    (mainRun [AttemptOutcome.serverDown, AttemptOutcome.invalidCredentials]).1 =
      some 1 :=
  (c8_supervisor_exit_codes
    [AttemptOutcome.serverDown, AttemptOutcome.invalidCredentials]).1.mpr (by rfl)

end PypubsubLdap
